import Mathlib

/-!
Verification of the sekr8s CLI core against its specification.

The development shallowly embeds the two stateful/algorithmic parts of the
source:

* `src/better_prompt.js` — the line-buffering prompt (`BetterPrompt`),
  modelled as a record `BPState` with pure transition functions
  `handleLine` and `getNextLine` mirroring the class methods;
* `src/commands.js` — the secret codec and command orchestration
  (`getSecret` key selection, `setSecret`/`createSecret` kubectl call
  construction), modelled as pure functions over strings and byte lists.

Machine-level collaborators (Node's `Buffer` base64/utf-8 conversions,
`String.prototype.split`/`substring`/`indexOf`, `JSON.stringify`) are
embedded as executable Lean functions implementing the same algorithms.
-/

namespace Sekr8s

/-! ## Line buffer (`src/better_prompt.js`)

The `BetterPrompt` class holds two mutable fields that the claims are
about: `linesQueue` (push/shift queue of strings) and `resolve` (the
registered listener for the next line, or `undefined`).  Promise resolver
functions are modelled by numeric tokens: resolving a waiter `w` with a
line is recorded in the operation's result rather than performed as an
effect.

`getNextLine` (line 52 of the source) reads `this.listenerResolve`; that
property is never assigned anywhere in the class (the promise executor at
lines 63–64 assigns `this.resolve`), so it is carried here as a field that
every operation leaves untouched and that starts out `none`, exactly as in
the JavaScript object. -/

structure BPState where
  linesQueue : List String
  resolve : Option Nat
  listenerResolve : Option Nat
deriving DecidableEq, Repr

/-- The state of a freshly constructed `BetterPrompt` (constructor,
lines 18–27): empty queue, no registered listener. -/
def BPState.init : BPState := ⟨[], none, none⟩

/-- Observable outcome of one `handleLine` call: either an outstanding
waiter was fulfilled with the line, or the line was queued. -/
inductive HandleResult where
  | resolved (w : Nat) (line : String)
  | queued
deriving DecidableEq, Repr

/-- Method `handleLine` (lines 34–42): if a listener is registered, clear it and
fulfil it with the line; otherwise push the line on the queue. -/
def handleLine (st : BPState) (line : String) : BPState × HandleResult :=
  match st.resolve with
  | some w => ({ st with resolve := none }, .resolved w line)
  | none => ({ st with linesQueue := st.linesQueue ++ [line] }, .queued)

/-- Observable outcome of one `getNextLine` call: the returned promise is
rejected, fulfilled immediately with a dequeued line, or left waiting on a
newly registered listener `w`. -/
inductive GetResult where
  | rejected
  | fulfilled (line : String)
  | waiting (w : Nat)
deriving DecidableEq, Repr

/-- Method `getNextLine` (lines 50–69), with `w` the fresh resolver token for the
promise created at line 63.  The guard at line 52 tests
`this.listenerResolve` — the never-assigned property — not `this.resolve`:
the model reproduces that test verbatim.  Otherwise, a queued line is
shifted and returned, else the resolver is stored in `this.resolve`. -/
def getNextLine (st : BPState) (w : Nat) : BPState × GetResult :=
  match st.listenerResolve with
  | some _ => (st, .rejected)
  | none =>
    match st.linesQueue with
    | l :: rest => ({ st with linesQueue := rest }, .fulfilled l)
    | [] => ({ st with resolve := some w }, .waiting w)

/-- Deliver a sequence of lines (successive readline `line` events). -/
def deliver (st : BPState) (ls : List String) : BPState :=
  ls.foldl (fun s l => (handleLine s l).1) st

/-- Issue `n` successive `getNextLine` calls with fresh resolver tokens
`w, w+1, …`, collecting the results. -/
def consume (st : BPState) : Nat → Nat → List GetResult × BPState
  | 0, _ => ([], st)
  | n + 1, w =>
    let p := getNextLine st w
    let rest := consume p.1 n (w + 1)
    (p.2 :: rest.1, rest.2)

/-- An arbitrary interleaving of line arrivals and line requests. -/
inductive BPOp where
  | line (l : String)
  | request (w : Nat)

/-- State transition of a single operation (result discarded). -/
def bpStep (st : BPState) : BPOp → BPState
  | .line l => (handleLine st l).1
  | .request w => (getNextLine st w).1

/-- Run a sequence of operations from the initial state. -/
def bpRun (ops : List BPOp) : BPState :=
  ops.foldl bpStep BPState.init

/-- The queue/waiter exclusion invariant: the queue is non-empty only when
no waiter is registered. -/
def bpInv (st : BPState) : Prop :=
  st.linesQueue = [] ∨ st.resolve = none

lemma deliver_none (ls : List String) :
    ∀ q lr, deliver ⟨q, none, lr⟩ ls = ⟨q ++ ls, none, lr⟩ := by
  induction ls with
  | nil => intro q lr; simp [deliver]
  | cons l ls ih =>
    intro q lr
    have h : deliver ⟨q, none, lr⟩ (l :: ls)
        = deliver ⟨q ++ [l], none, lr⟩ ls := by
      simp [deliver, handleLine]
    rw [h, ih]
    simp

lemma consume_queue (q : List String) :
    ∀ w, consume ⟨q, none, none⟩ q.length w = (q.map .fulfilled, BPState.init) := by
  induction q with
  | nil => intro w; simp [consume, BPState.init]
  | cons l rest ih =>
    intro w
    simp only [List.length_cons, List.map_cons]
    rw [show consume ⟨l :: rest, none, none⟩ (rest.length + 1) w
        = ((getNextLine ⟨l :: rest, none, none⟩ w).2
            :: (consume (getNextLine ⟨l :: rest, none, none⟩ w).1 rest.length (w + 1)).1,
           (consume (getNextLine ⟨l :: rest, none, none⟩ w).1 rest.length (w + 1)).2)
      from rfl]
    simp [getNextLine, ih]

lemma bpStep_inv (st : BPState) (op : BPOp) (h : bpInv st) : bpInv (bpStep st op) := by
  cases op with
  | line l =>
    simp only [bpStep, handleLine]
    cases hr : st.resolve with
    | some w => right; rfl
    | none => right; rfl
  | request w =>
    simp only [bpStep, getNextLine]
    cases hl : st.listenerResolve with
    | some v => exact h
    | none =>
      cases hq : st.linesQueue with
      | nil => left; rfl
      | cons l rest =>
        rcases h with h | h
        · rw [hq] at h; exact absurd h (by simp)
        · right; exact h

lemma bpRun_aux (ops : List BPOp) :
    ∀ st, bpInv st → bpInv (ops.foldl bpStep st) := by
  induction ops with
  | nil => intro st h; exact h
  | cons op ops ih =>
    intro st h
    exact ih _ (bpStep_inv st op h)

/-- C1 (code evaluated at the failing input): starting from a fresh
buffer, a first `getNextLine` registers waiter `0`; a second `getNextLine`
issued before any line arrives does **not** reject — it registers waiter
`1`, silently overwriting the first request's resolver, which is therefore
never fulfilled.  This contradicts the documented contract ("The promise
will be rejected if another listener is already registered"): the guard
reads the never-assigned `listenerResolve` property instead of `resolve`. -/
theorem second_getNextLine_overwrites_waiter :
    (getNextLine BPState.init 0).1.resolve = some 0 ∧
    (getNextLine (getNextLine BPState.init 0).1 1).2 = .waiting 1 ∧
    (getNextLine (getNextLine BPState.init 0).1 1).1.resolve = some 1 := by
  decide

/-- C5: for every sequence of lines delivered before any request is
issued, successive `getNextLine` calls return exactly those lines, in
delivery (FIFO) order, each fulfilled immediately (never `waiting`, never
`rejected`), and afterwards the buffer is back to its initial state (every
line was dequeued). -/
theorem fifo_consume (ls : List String) :
    consume (deliver BPState.init ls) ls.length 0
      = (ls.map GetResult.fulfilled, BPState.init) := by
  rw [show BPState.init = ⟨[], none, none⟩ from rfl, deliver_none]
  simpa using consume_queue ls 0

/-- C6: whenever a waiter `w` is outstanding (a `getNextLine` call is
suspended), an arriving line fulfils exactly that waiter with that line,
clears the registered listener, and leaves the queue untouched. -/
theorem handleLine_resolves_waiter (st : BPState) (line : String) (w : Nat)
    (h : st.resolve = some w) :
    handleLine st line = ({ st with resolve := none }, .resolved w line) := by
  simp [handleLine, h]

/-- Witness for C6 at a concrete suspended state. -/
theorem handleLine_resolves_waiter_witness :
    handleLine ⟨[], some 5, none⟩ "hello"
      = (⟨[], none, none⟩, .resolved 5 "hello") :=
  handleLine_resolves_waiter ⟨[], some 5, none⟩ "hello" 5 rfl

/-- C10: across every sequence of `handleLine` / `getNextLine` operations
from the initial state, the lines queue is non-empty only when no waiter
is registered. -/
theorem bpRun_invariant (ops : List BPOp) :
    (bpRun ops).linesQueue = [] ∨ (bpRun ops).resolve = none :=
  bpRun_aux ops BPState.init (Or.inl rfl)

/-! ## Secret dump parsing (`src/commands.js`, `getSecret` lines 71–90)

`getSecret` splits kubectl's templated output on `'\n'`
(`getSecretsResult.split('\n')`), drops the final empty item produced by
the terminal newline (`rawLines.slice(0, rawLines.length - 1)`), and
splits each remaining record at its first colon
(`line.indexOf(':')` / `substring`).  Strings are modelled as `List Char`;
`splitNL` implements JavaScript `String.prototype.split('\n')` and
`splitRecord` the `indexOf`/`substring` pair, including the behaviour on a
record with no colon (`indexOf` returns `-1`, so `substring(0, -1)` yields
`""` and `substring(0)` yields the whole record). -/

/-- Index of the first `':'` in a record, if any (JS `indexOf(':')`). -/
def firstColonIdx : List Char → Option Nat
  | [] => none
  | c :: cs => if c = ':' then some 0 else (firstColonIdx cs).map (· + 1)

/-- Split one record at its first colon into (key, encodedValue). -/
def splitRecord (line : List Char) : List Char × List Char :=
  match firstColonIdx line with
  | some i => (line.take i, line.drop (i + 1))
  | none => ([], line)

/-- JavaScript `split('\n')`: the list of segments between newlines,
including a final (possibly empty) segment. -/
def splitNL : List Char → List (List Char)
  | [] => [[]]
  | c :: cs =>
    if c = '\n' then [] :: splitNL cs
    else
      match splitNL cs with
      | [] => [[c]]
      | r :: rs => (c :: r) :: rs

/-- Parse the secret dump: split on newlines, discard the trailing empty
record, split each record at its first colon. -/
def parseSecretDump (s : List Char) : List (List Char × List Char) :=
  ((splitNL s).dropLast).map splitRecord

/-- The text kubectl's go-template emits for an ordered list of
(key, encodedValue) pairs: one `key:value` record per pair, each
terminated by a newline. -/
def renderDump (pairs : List (List Char × List Char)) : List Char :=
  (pairs.map (fun p => p.1 ++ ':' :: p.2 ++ ['\n'])).flatten

lemma splitNL_ne_nil (cs : List Char) : splitNL cs ≠ [] := by
  induction cs with
  | nil => simp [splitNL]
  | cons c cs ih =>
    by_cases h : c = '\n'
    · simp [splitNL, h]
    · simp only [splitNL, h, if_false]
      cases hs : splitNL cs with
      | nil => simp
      | cons r rs => simp

lemma splitNL_append (xs : List Char) (rest : List Char) (h : '\n' ∉ xs) :
    splitNL (xs ++ '\n' :: rest) = xs :: splitNL rest := by
  induction xs with
  | nil => simp [splitNL]
  | cons c cs ih =>
    have hc : c ≠ '\n' := fun e => h (e ▸ List.mem_cons_self c cs)
    have hcs : '\n' ∉ cs := fun e => h (List.mem_cons_of_mem c e)
    simp [splitNL, hc, ih hcs]

lemma firstColonIdx_append (k : List Char) (v : List Char) (h : ':' ∉ k) :
    firstColonIdx (k ++ ':' :: v) = some k.length := by
  induction k with
  | nil => simp [firstColonIdx]
  | cons c cs ih =>
    have hc : c ≠ ':' := fun e => h (e ▸ List.mem_cons_self c cs)
    have hcs : ':' ∉ cs := fun e => h (List.mem_cons_of_mem c e)
    simp [firstColonIdx, hc, ih hcs]

lemma splitRecord_append (k v : List Char) (h : ':' ∉ k) :
    splitRecord (k ++ ':' :: v) = (k, v) := by
  simp only [splitRecord, firstColonIdx_append k v h]
  have h1 : (k ++ ':' :: v).take k.length = k := List.take_left k (':' :: v)
  have h2 : (k ++ ':' :: v).drop (k.length + 1) = v := by
    rw [show k.length + 1 = (k ++ [':']).length by simp,
      show k ++ ':' :: v = (k ++ [':']) ++ v by simp]
    exact List.drop_left _ _
  rw [h1, h2]

/-- C4: parsing the dump of any pair sequence whose keys contain no colon
and whose keys and values contain no newline recovers exactly those
(key, encodedValue) pairs: each newline-terminated record is split at its
first colon, the trailing empty record from the terminal newline is
discarded, and emission order is preserved. -/
theorem parseSecretDump_renderDump (pairs : List (List Char × List Char))
    (h : ∀ p ∈ pairs, ':' ∉ p.1 ∧ '\n' ∉ p.1 ∧ '\n' ∉ p.2) :
    parseSecretDump (renderDump pairs) = pairs := by
  induction pairs with
  | nil => simp [parseSecretDump, renderDump, splitNL]
  | cons p ps ih =>
    obtain ⟨hk, hkn, hvn⟩ := h p (List.mem_cons_self p ps)
    have hrec : '\n' ∉ p.1 ++ ':' :: p.2 := by
      intro hm
      rcases List.mem_append.1 hm with hm | hm
      · exact hkn hm
      · rcases List.mem_cons.1 hm with hm | hm
        · exact absurd hm.symm (by decide)
        · exact hvn hm
    have hs : splitNL (renderDump (p :: ps))
        = (p.1 ++ ':' :: p.2) :: splitNL (renderDump ps) := by
      rw [show renderDump (p :: ps)
          = (p.1 ++ ':' :: p.2) ++ '\n' :: renderDump ps by
        simp [renderDump]]
      exact splitNL_append _ _ hrec
    have hd : (splitNL (renderDump (p :: ps))).dropLast
        = (p.1 ++ ':' :: p.2) :: (splitNL (renderDump ps)).dropLast := by
      rw [hs]
      exact List.dropLast_cons_of_ne_nil (splitNL_ne_nil _)
    have ihp := ih (fun q hq => h q (List.mem_cons_of_mem p hq))
    simp only [parseSecretDump] at ihp ⊢
    rw [hd, List.map_cons, splitRecord_append p.1 p.2 hk, ihp]

/-- Witness for C4: parsing `"foo:YmFy\nbaz:cXV1eA==\n"` yields the
ordered pairs `[("foo","YmFy"), ("baz","cXV1eA==")]`. -/
theorem parseSecretDump_example :
    parseSecretDump ("foo:YmFy\nbaz:cXV1eA==\n".toList)
      = [("foo".toList, "YmFy".toList), ("baz".toList, "cXV1eA==".toList)] := by
  have h := parseSecretDump_renderDump
    [("foo".toList, "YmFy".toList), ("baz".toList, "cXV1eA==".toList)]
    (by decide)
  have e : renderDump
      [("foo".toList, "YmFy".toList), ("baz".toList, "cXV1eA==".toList)]
      = "foo:YmFy\nbaz:cXV1eA==\n".toList := by decide
  rw [e] at h
  exact h

/-! ## Key selection (`src/commands.js`, `getSecret` lines 77–105)

`getSecret` builds `valuesByKey` (a JS `Map`, so a later record with a
duplicate key overwrites an earlier one) and then, when keys were
requested, validates each with `const value = valuesByKey.get(key);
if (!value) { … throw … }`.  A value is falsy when the key is absent
(`undefined`), or — without the decode flag, where stored values are
strings — when the encoded value is the empty string `""`.  With the
decode flag the stored value is a `Buffer`, which is truthy even when
empty.  The error is printed and thrown before any output line is
produced, so a failure yields no partial output; this is modelled by
returning `Except`. -/

/-- JS `Map` lookup for a map built from a pair list: the *last* binding
of a key wins. -/
def mapGet : List (String × String) → String → Option String
  | [], _ => none
  | (k', v) :: rest, k =>
    match mapGet rest k with
    | some r => some r
    | none => if k' = k then some v else none

/-- Whether the stored display value for an encoded value is JS-falsy:
never with the decode flag (a `Buffer` is always truthy), otherwise
exactly when the encoded string is empty. -/
def isFalsyDisplay (shouldDecode : Bool) (encoded : String) : Bool :=
  if shouldDecode then false else encoded = ""

/-- The message printed at line 98 of `src/commands.js`. -/
def keyNotFoundMsg (k secretName : String) : String :=
  "Error: Key \"" ++ k ++ "\" not found in secret \"" ++ secretName ++ "\"."

/-- Whether a requested key passes the `if (!value)` validation. -/
def truthyAt (shouldDecode : Bool) (mapping : List (String × String))
    (k : String) : Bool :=
  match mapGet mapping k with
  | none => false
  | some v => !(isFalsyDisplay shouldDecode v)

/-- Traversal of the requested keys (the `keys.map` callback passed to the
`Map` constructor at lines 95–102): look each key up in order; the first
key whose value is missing or falsy throws the key-not-found error, which
aborts the whole construction; otherwise the validated (key, value) pairs
are collected in requested order. -/
def selectLoop (shouldDecode : Bool) (mapping : List (String × String))
    (secretName : String) : List String → Except String (List (String × String))
  | [] => .ok []
  | k :: ks =>
    match mapGet mapping k with
    | none => .error (keyNotFoundMsg k secretName)
    | some v =>
      if isFalsyDisplay shouldDecode v then
        .error (keyNotFoundMsg k secretName)
      else
        match selectLoop shouldDecode mapping secretName ks with
        | .error e => .error e
        | .ok rest => .ok ((k, v) :: rest)

/-- The key-selection phase of `getSecret` (lines 77–105): with no
requested keys, the whole parsed mapping in source order; otherwise each
requested key in order, aborting with the key-not-found message at the
first key whose looked-up value is missing or falsy. -/
def selectKeys (shouldDecode : Bool) (mapping : List (String × String))
    (requested : List String) (secretName : String) :
    Except String (List (String × String)) :=
  if requested.isEmpty then .ok mapping
  else selectLoop shouldDecode mapping secretName requested

lemma selectKeys_nil (shouldDecode : Bool) (mapping : List (String × String))
    (secretName : String) :
    selectKeys shouldDecode mapping [] secretName = .ok mapping := rfl

lemma selectKeys_ne_nil (shouldDecode : Bool)
    (mapping : List (String × String)) (requested : List String)
    (secretName : String) (h : requested ≠ []) :
    selectKeys shouldDecode mapping requested secretName
      = selectLoop shouldDecode mapping secretName requested := by
  cases requested with
  | nil => exact absurd rfl h
  | cons a as => rfl

lemma selectLoop_ok (shouldDecode : Bool) (mapping : List (String × String))
    (secretName : String) :
    ∀ requested : List String,
      (∀ k ∈ requested, truthyAt shouldDecode mapping k = true) →
      selectLoop shouldDecode mapping secretName requested
        = .ok (requested.map (fun k => (k, (mapGet mapping k).getD ""))) := by
  intro requested
  induction requested with
  | nil => intro _; rfl
  | cons k ks ih =>
    intro h
    have hk := h k (List.mem_cons_self k ks)
    have hks := ih (fun k' hk' => h k' (List.mem_cons_of_mem k hk'))
    cases hm : mapGet mapping k with
    | none => simp [truthyAt, hm] at hk
    | some v =>
      simp only [truthyAt, hm] at hk
      have hv : isFalsyDisplay shouldDecode v = false := by simpa using hk
      simp [selectLoop, hm, hv, hks]

lemma selectLoop_err (shouldDecode : Bool) (mapping : List (String × String))
    (secretName : String) :
    ∀ requested : List String,
      (∃ k ∈ requested, truthyAt shouldDecode mapping k = false) →
      ∃ k, k ∈ requested ∧ truthyAt shouldDecode mapping k = false ∧
        selectLoop shouldDecode mapping secretName requested
          = .error (keyNotFoundMsg k secretName) := by
  intro requested
  induction requested with
  | nil => rintro ⟨k, hk, _⟩; exact absurd hk (by simp)
  | cons k ks ih =>
    intro hex
    by_cases hk : truthyAt shouldDecode mapping k = true
    · -- head key fine: the failure comes from the tail
      have htail : ∃ k' ∈ ks, truthyAt shouldDecode mapping k' = false := by
        rcases hex with ⟨k', hk', hf⟩
        rcases List.mem_cons.1 hk' with rfl | hmem
        · rw [hk] at hf; exact absurd hf (by simp)
        · exact ⟨k', hmem, hf⟩
      rcases ih htail with ⟨k', hmem, hf, heq⟩
      refine ⟨k', List.mem_cons_of_mem k hmem, hf, ?_⟩
      cases hm : mapGet mapping k with
      | none => simp [truthyAt, hm] at hk
      | some v =>
        simp only [truthyAt, hm] at hk
        have hv : isFalsyDisplay shouldDecode v = false := by simpa using hk
        simp [selectLoop, hm, hv, heq]
    · -- head key itself fails
      have hkf : truthyAt shouldDecode mapping k = false := by
        cases hfd : truthyAt shouldDecode mapping k
        · rfl
        · exact absurd hfd hk
      refine ⟨k, List.mem_cons_self k ks, hkf, ?_⟩
      cases hm : mapGet mapping k with
      | none => simp [selectLoop, hm]
      | some v =>
        simp only [truthyAt, hm] at hkf
        have hv : isFalsyDisplay shouldDecode v = true := by simpa using hkf
        simp [selectLoop, hm, hv]

/-- C3 (amended): with no requested keys, selection returns the whole
parsed mapping in source order.  With requested keys, it returns the
entries in requested order **provided** every requested key is present
with a truthy display value (without the decode flag this additionally
requires a non-empty encoded value); and whenever some requested key is
absent or falsy, selection aborts with the key-not-found error naming an
offending requested key and the secret name, producing no entries at
all. -/
theorem selectKeys_spec (shouldDecode : Bool)
    (mapping : List (String × String)) (requested : List String)
    (secretName : String) :
    (selectKeys shouldDecode mapping [] secretName = .ok mapping)
    ∧ (requested ≠ [] →
        (∀ k ∈ requested, truthyAt shouldDecode mapping k = true) →
        selectKeys shouldDecode mapping requested secretName
          = .ok (requested.map (fun k => (k, (mapGet mapping k).getD ""))))
    ∧ ((∃ k ∈ requested, truthyAt shouldDecode mapping k = false) →
        ∃ k, k ∈ requested ∧ truthyAt shouldDecode mapping k = false ∧
          selectKeys shouldDecode mapping requested secretName
            = .error (keyNotFoundMsg k secretName)) := by
  refine ⟨selectKeys_nil _ _ _, ?_, ?_⟩
  · intro hne hall
    rw [selectKeys_ne_nil _ _ _ _ hne]
    exact selectLoop_ok shouldDecode mapping secretName requested hall
  · intro hex
    have hne : requested ≠ [] := by
      rcases hex with ⟨k, hk, _⟩
      intro h
      rw [h] at hk
      exact absurd hk (by simp)
    rcases selectLoop_err shouldDecode mapping secretName requested hex with
      ⟨k, hmem, hf, heq⟩
    exact ⟨k, hmem, hf, by rw [selectKeys_ne_nil _ _ _ _ hne]; exact heq⟩

/-- Counterexample for C3 as stated: the key `"k"` is present in the
parsed mapping `[("k","")]`, yet (without the decode flag) selection of
`["k"]` does not return the entry — it aborts with the key-not-found
error, because the empty encoded value is JS-falsy. -/
theorem selectKeys_present_key_fails :
    mapGet [("k", "")] "k" = some "" ∧
    selectKeys false [("k", "")] ["k"] "s"
      = .error (keyNotFoundMsg "k" "s") := by
  constructor
  · rfl
  · rfl

/-- Witness for C3 at a concrete input: requesting `["b", "a"]` from the
mapping `[("a","x"),("b","y")]` returns the entries in requested order. -/
theorem selectKeys_spec_witness :
    selectKeys false [("a", "x"), ("b", "y")] ["b", "a"] "s"
      = .ok [("b", "y"), ("a", "x")] := by
  have h := (selectKeys_spec false [("a", "x"), ("b", "y")] ["b", "a"] "s").2.1
    (by decide) (by decide)
  simpa using h

/-- C9: in `getSecret` without the decode flag, a requested key that *is*
present in the fetched secret but whose encoded value is the empty string
is rejected with the key-not-found error naming that key and the secret
name (provided selection reaches it, i.e. every earlier requested key
validates), even though the key exists in the mapping. -/
theorem selectKeys_empty_value_rejected
    (mapping : List (String × String)) (pre : List String) (k : String)
    (rest : List String) (secretName : String)
    (hpre : ∀ k' ∈ pre, truthyAt false mapping k' = true)
    (hk : mapGet mapping k = some "") :
    selectKeys false mapping (pre ++ k :: rest) secretName
      = .error (keyNotFoundMsg k secretName) := by
  rw [selectKeys_ne_nil _ _ _ _ (by cases pre <;> simp)]
  induction pre with
  | nil => simp [selectLoop, hk, isFalsyDisplay]
  | cons p ps ih =>
    have hp := hpre p (List.mem_cons_self p ps)
    have hps := ih (fun k' hk' => hpre k' (List.mem_cons_of_mem p hk'))
    rw [List.cons_append]
    cases hm : mapGet mapping p with
    | none => simp [truthyAt, hm] at hp
    | some v =>
      simp only [truthyAt, hm] at hp
      have hv : isFalsyDisplay false v = false := by simpa using hp
      simp [selectLoop, hm, hv, hps]

/-- Witness for C9: the single requested key `"k"`, present with an empty
encoded value, is rejected with the key-not-found message. -/
theorem selectKeys_empty_value_rejected_witness :
    selectKeys false [("k", "")] ([] ++ "k" :: []) "s"
      = .error (keyNotFoundMsg "k" "s") :=
  selectKeys_empty_value_rejected [("k", "")] [] "k" [] "s"
    (by decide) (by decide)

/-! ## Base64 value codec

`getSecret` decodes values with `Buffer.from(encodedValue, 'base64')`
(line 88 of `src/commands.js`) and `setSecret` encodes user input with
`Buffer.from(value, 'utf-8').toString('base64')` (line 166).  The
standard base64 algorithm Node implements is embedded here over byte
lists: `b64encode` produces the canonical padded encoding, and
`b64decode` inverts it on canonical input (Node's decoder is lenient on
non-canonical input, but it agrees with the strict decoder on every
canonical string, which is all the round-trip claim quantifies over). -/

/-- The base64 alphabet: sextet value to character. -/
def toB64Char (n : Nat) : Char :=
  if n < 26 then Char.ofNat (65 + n)
  else if n < 52 then Char.ofNat (97 + (n - 26))
  else if n < 62 then Char.ofNat (48 + (n - 52))
  else if n = 62 then '+'
  else '/'

/-- The base64 alphabet: character to sextet value, if in the alphabet. -/
def fromB64Char (c : Char) : Option Nat :=
  if 65 ≤ c.toNat ∧ c.toNat ≤ 90 then some (c.toNat - 65)
  else if 97 ≤ c.toNat ∧ c.toNat ≤ 122 then some (c.toNat - 97 + 26)
  else if 48 ≤ c.toNat ∧ c.toNat ≤ 57 then some (c.toNat - 48 + 52)
  else if c = '+' then some 62
  else if c = '/' then some 63
  else none

/-- Operation `encodeValue`: canonical padded base64 encoding of a byte list
(`Buffer.prototype.toString('base64')`). -/
def b64encode : List Nat → List Char
  | [] => []
  | [b0] => [toB64Char (b0 / 4), toB64Char (b0 % 4 * 16), '=', '=']
  | [b0, b1] =>
    [toB64Char (b0 / 4), toB64Char (b0 % 4 * 16 + b1 / 16),
     toB64Char (b1 % 16 * 4), '=']
  | b0 :: b1 :: b2 :: rest =>
    toB64Char (b0 / 4) :: toB64Char (b0 % 4 * 16 + b1 / 16) ::
    toB64Char (b1 % 16 * 4 + b2 / 64) :: toB64Char (b2 % 64) ::
    b64encode rest

/-- Operation `decodeValue`: strict base64 decoding, defined on exactly the
canonical padded encodings (`Buffer.from(·, 'base64')`, restricted to the
canonical strings the round-trip claim ranges over). -/
def b64decode : List Char → Option (List Nat)
  | [] => some []
  | c0 :: c1 :: c2 :: c3 :: rest =>
    if rest = [] ∧ c2 = '=' ∧ c3 = '=' then
      match fromB64Char c0, fromB64Char c1 with
      | some v0, some v1 =>
        if v1 % 16 = 0 then some [v0 * 4 + v1 / 16] else none
      | _, _ => none
    else if rest = [] ∧ c3 = '=' then
      match fromB64Char c0, fromB64Char c1, fromB64Char c2 with
      | some v0, some v1, some v2 =>
        if v2 % 4 = 0 then some [v0 * 4 + v1 / 16, v1 % 16 * 16 + v2 / 4]
        else none
      | _, _, _ => none
    else
      match fromB64Char c0, fromB64Char c1, fromB64Char c2, fromB64Char c3,
          b64decode rest with
      | some v0, some v1, some v2, some v3, some tail =>
        some ((v0 * 4 + v1 / 16) :: (v1 % 16 * 16 + v2 / 4) ::
          (v2 % 4 * 64 + v3) :: tail)
      | _, _, _, _, _ => none
  | _ => none

lemma fromB64Char_toB64Char : ∀ n < 64, fromB64Char (toB64Char n) = some n := by
  decide

lemma toB64Char_ne_eq : ∀ n < 64, toB64Char n ≠ '=' := by decide

/-- A valid base64 string: the canonical encoding of some byte list. -/
def ValidB64 (s : List Char) : Prop :=
  ∃ b : List Nat, (∀ x ∈ b, x < 256) ∧ b64encode b = s

lemma b64_decode_encode :
    ∀ b : List Nat, (∀ x ∈ b, x < 256) → b64decode (b64encode b) = some b
  | [], _ => rfl
  | [b0], h => by
    have hb0 : b0 < 256 := h b0 (by simp)
    have h0 : b0 / 4 < 64 := by omega
    have h1 : b0 % 4 * 16 < 64 := by omega
    rw [show b64encode [b0]
        = [toB64Char (b0 / 4), toB64Char (b0 % 4 * 16), '=', '='] from rfl]
    rw [show b64decode [toB64Char (b0 / 4), toB64Char (b0 % 4 * 16), '=', '=']
        = if (b0 % 4 * 16) % 16 = 0 then some [b0 / 4 * 4 + b0 % 4 * 16 / 16]
          else none by
      simp [b64decode, fromB64Char_toB64Char _ h0, fromB64Char_toB64Char _ h1]]
    rw [if_pos (by omega)]
    congr 2
    omega
  | [b0, b1], h => by
    have hb0 : b0 < 256 := h b0 (by simp)
    have hb1 : b1 < 256 := h b1 (by simp)
    have h0 : b0 / 4 < 64 := by omega
    have h1 : b0 % 4 * 16 + b1 / 16 < 64 := by omega
    have h2 : b1 % 16 * 4 < 64 := by omega
    rw [show b64encode [b0, b1]
        = [toB64Char (b0 / 4), toB64Char (b0 % 4 * 16 + b1 / 16),
           toB64Char (b1 % 16 * 4), '='] from rfl]
    rw [show b64decode
          [toB64Char (b0 / 4), toB64Char (b0 % 4 * 16 + b1 / 16),
           toB64Char (b1 % 16 * 4), '=']
        = if (b1 % 16 * 4) % 4 = 0 then
            some [b0 / 4 * 4 + (b0 % 4 * 16 + b1 / 16) / 16,
              (b0 % 4 * 16 + b1 / 16) % 16 * 16 + b1 % 16 * 4 / 4]
          else none by
      simp [b64decode, toB64Char_ne_eq _ h2, fromB64Char_toB64Char _ h0,
        fromB64Char_toB64Char _ h1, fromB64Char_toB64Char _ h2]]
    rw [if_pos (by omega)]
    congr 3
    · omega
    · omega
  | b0 :: b1 :: b2 :: b3 :: rest, h => by
    have hb0 : b0 < 256 := h b0 (by simp)
    have hb1 : b1 < 256 := h b1 (by simp)
    have hb2 : b2 < 256 := h b2 (by simp)
    have h0 : b0 / 4 < 64 := by omega
    have h1 : b0 % 4 * 16 + b1 / 16 < 64 := by omega
    have h2 : b1 % 16 * 4 + b2 / 64 < 64 := by omega
    have h3 : b2 % 64 < 64 := by omega
    have htail : b64decode (b64encode (b3 :: rest)) = some (b3 :: rest) :=
      b64_decode_encode (b3 :: rest)
        (fun x hx => h x (by simp at hx ⊢; tauto))
    have henc : b64encode (b0 :: b1 :: b2 :: b3 :: rest)
        = toB64Char (b0 / 4) :: toB64Char (b0 % 4 * 16 + b1 / 16) ::
          toB64Char (b1 % 16 * 4 + b2 / 64) :: toB64Char (b2 % 64) ::
          b64encode (b3 :: rest) := rfl
    have hne : b64encode (b3 :: rest) ≠ [] := by
      cases rest with
      | nil => simp [b64encode]
      | cons b4 rest' =>
        cases rest' with
        | nil => simp [b64encode]
        | cons b5 rest'' => simp [b64encode]
    rw [henc]
    rw [show b64decode
          (toB64Char (b0 / 4) :: toB64Char (b0 % 4 * 16 + b1 / 16) ::
           toB64Char (b1 % 16 * 4 + b2 / 64) :: toB64Char (b2 % 64) ::
           b64encode (b3 :: rest))
        = some ((b0 / 4 * 4 + (b0 % 4 * 16 + b1 / 16) / 16) ::
            ((b0 % 4 * 16 + b1 / 16) % 16 * 16 + (b1 % 16 * 4 + b2 / 64) / 4) ::
            ((b1 % 16 * 4 + b2 / 64) % 4 * 64 + b2 % 64) :: b3 :: rest) by
      simp [b64decode, hne, fromB64Char_toB64Char _ h0,
        fromB64Char_toB64Char _ h1, fromB64Char_toB64Char _ h2,
        fromB64Char_toB64Char _ h3, htail]]
    congr 4
    · omega
    · omega
    · omega
  | [b0, b1, b2], h => by
    have hb0 : b0 < 256 := h b0 (by simp)
    have hb1 : b1 < 256 := h b1 (by simp)
    have hb2 : b2 < 256 := h b2 (by simp)
    have h0 : b0 / 4 < 64 := by omega
    have h1 : b0 % 4 * 16 + b1 / 16 < 64 := by omega
    have h2 : b1 % 16 * 4 + b2 / 64 < 64 := by omega
    have h3 : b2 % 64 < 64 := by omega
    rw [show b64encode [b0, b1, b2]
        = [toB64Char (b0 / 4), toB64Char (b0 % 4 * 16 + b1 / 16),
           toB64Char (b1 % 16 * 4 + b2 / 64), toB64Char (b2 % 64)] from rfl]
    rw [show b64decode
          [toB64Char (b0 / 4), toB64Char (b0 % 4 * 16 + b1 / 16),
           toB64Char (b1 % 16 * 4 + b2 / 64), toB64Char (b2 % 64)]
        = some [b0 / 4 * 4 + (b0 % 4 * 16 + b1 / 16) / 16,
            (b0 % 4 * 16 + b1 / 16) % 16 * 16 + (b1 % 16 * 4 + b2 / 64) / 4,
            (b1 % 16 * 4 + b2 / 64) % 4 * 64 + b2 % 64] by
      simp [b64decode, toB64Char_ne_eq _ h2, toB64Char_ne_eq _ h3,
        fromB64Char_toB64Char _ h0, fromB64Char_toB64Char _ h1,
        fromB64Char_toB64Char _ h2, fromB64Char_toB64Char _ h3]]
    congr 4
    · omega
    · omega
    · omega

/-- C8: the value codec round-trips.  Decoding the encoding of any byte
sequence recovers exactly that sequence, and encoding the decoding of any
valid (canonical) base64 string recovers exactly that string. -/
theorem b64_roundtrip :
    (∀ b : List Nat, (∀ x ∈ b, x < 256) → b64decode (b64encode b) = some b)
    ∧ (∀ s : List Char, ValidB64 s →
        ∃ b : List Nat, b64decode s = some b ∧ b64encode b = s) := by
  refine ⟨b64_decode_encode, ?_⟩
  rintro s ⟨b, hb, rfl⟩
  exact ⟨b, b64_decode_encode b hb, rfl⟩

/-- Witness for C8 on the byte sequence `[49]` (the UTF-8 bytes of `"1"`)
and the valid base64 string `"MQ=="`. -/
theorem b64_roundtrip_witness :
    b64decode (b64encode [49]) = some [49] ∧
    (∃ b : List Nat, b64decode ("MQ==".toList) = some b ∧
      b64encode b = "MQ==".toList) :=
  ⟨b64_roundtrip.1 [49] (by decide),
   b64_roundtrip.2 ("MQ==".toList) ⟨[49], by decide, by decide⟩⟩

/-! ## `setSecret` / `createSecret` call construction
(`src/commands.js`, lines 141–204)

The orchestration is modelled by the sequence of kubectl invocations a
command issues (each invocation as its argument list, exactly as built by
the source) together with the number of input lines consumed.  kubectl
itself is a collaborator: its output for the key-listing `get` in the
empty-keys branch of `setSecret` is a parameter, and the model describes
the success path (a failing invocation aborts the JS flow with
`ExitError`).  The model assumes enough input lines are available — with
fewer, the source suspends forever on `getNextLine` and never reaches the
patch step.  `JSON.stringify` is embedded for string-valued objects with
escaping of quote, backslash and newline (secret keys and base64 values
never need the remaining control-character escapes); object keys are laid
out in pair order, matching JS insertion order for the non-integer-like
keys secrets use. -/

/-- The expression `namespace ? ['-n', namespace] : []` (lines 142, 195). -/
def namespaceArgs : Option String → List String
  | some n => ["-n", n]
  | none => []

/-- The go-template passed by `setSecret`'s key-listing fetch (line 144). -/
def getKeysFormat : String :=
  "go-template=\x7b\x7brange $key, $ignored := .data\x7d\x7d\x7b\x7b$key\x7d\x7d\n\x7b\x7bend\x7d\x7d"

/-- UTF-8 encoding of one character (`Buffer.from(·, 'utf-8')`). -/
def utf8EncodeChar (c : Char) : List Nat :=
  let n := c.toNat
  if n < 128 then [n]
  else if n < 2048 then [192 + n / 64, 128 + n % 64]
  else if n < 65536 then [224 + n / 4096, 128 + n / 64 % 64, 128 + n % 64]
  else [240 + n / 262144, 128 + n / 4096 % 64, 128 + n / 64 % 64, 128 + n % 64]

/-- UTF-8 encoding of a string as a byte list. -/
def utf8Encode (s : String) : List Nat :=
  (s.toList.map utf8EncodeChar).flatten

/-- JSON string-character escaping (quote, backslash, newline). -/
def jsonEscapeChar (c : Char) : List Char :=
  if c = '"' then ['\\', '"']
  else if c = '\\' then ['\\', '\\']
  else if c = '\n' then ['\\', 'n']
  else [c]

/-- A JSON string literal for `s`. -/
def jsonQuote (s : String) : String :=
  "\"" ++ String.mk ((s.toList.map jsonEscapeChar).flatten) ++ "\""

/-- The result of `JSON.stringify({ data: {…} })` for the collected pairs (line 177):
`{"data":{"k":"v",…}}` with keys in insertion order and no whitespace. -/
def jsonPatchPayload (pairs : List (String × String)) : String :=
  "\x7b\"data\":\x7b"
    ++ String.intercalate ","
        (pairs.map (fun p => jsonQuote p.1 ++ ":" ++ jsonQuote p.2))
    ++ "\x7d\x7d"

/-- Value transformation before patching (lines 164–173): unless
`skipEncode`, replace the user's line by the base64 encoding of its UTF-8
bytes; with `skipEncode` the line is passed through unvalidated. -/
def transformValue (skipEncode : Bool) (value : String) : String :=
  if skipEncode then value else String.mk (b64encode (utf8Encode value))

/-- Function `setSecret` (lines 141–182): the kubectl invocations issued and the
number of input lines consumed.  With no requested keys, a key-listing
`get` runs first and its newline-terminated output (parameter
`getOutput`) supplies the keys (split on newlines, final empty item
dropped); one line of input is read per key, in key order; a single
`patch` with the JSON payload of the transformed pairs follows. -/
def setSecretCalls (ns : Option String) (secretName : String)
    (keys : List String) (skipEncode : Bool) (getOutput : List Char)
    (inputs : List String) : List (List String) × Nat :=
  let nsArgs := namespaceArgs ns
  let getCalls :=
    if keys.isEmpty then
      [nsArgs ++ ["get", "secret", secretName, "-o", getKeysFormat]]
    else []
  let allKeys :=
    if keys.isEmpty then ((splitNL getOutput).dropLast).map String.mk
    else keys
  let pairs :=
    (allKeys.zip inputs).map (fun p => (p.1, transformValue skipEncode p.2))
  (getCalls
    ++ [nsArgs ++ ["patch", "secret", secretName, "-p", jsonPatchPayload pairs]],
   allKeys.length)

/-- Function `createSecret` (lines 193–204): create an empty secret, then — only
if keys were requested — run the `setSecret` flow on them (the fourth
argument is passed positionally into `setSecret`'s `skipEncode` slot). -/
def createSecretCalls (ns : Option String) (secretName : String)
    (keys : List String) (encodeValues : Bool) (getOutput : List Char)
    (inputs : List String) : List (List String) × Nat :=
  let nsArgs := namespaceArgs ns
  let createCall := nsArgs ++ ["create", "secret", "generic", secretName]
  if keys.length > 0 then
    let s := setSecretCalls ns secretName keys encodeValues getOutput inputs
    (createCall :: s.1, s.2)
  else
    ([createCall], 0)

/-- C2: a `set` on the two keys `a`, `b` with user inputs `"1"`, `"2"`
and encoding enabled issues exactly one kubectl invocation — the patch —
whose payload is `{"data":{"a":"MQ==","b":"Mg=="}}`, after consuming both
input lines. -/
theorem setSecret_two_keys (ns : Option String) (name : String)
    (getOutput : List Char) :
    setSecretCalls ns name ["a", "b"] false getOutput ["1", "2"]
      = ([namespaceArgs ns ++ ["patch", "secret", name, "-p",
          "\x7b\"data\":\x7b\"a\":\"MQ==\",\"b\":\"Mg==\"\x7d\x7d"]], 2) := by
  rfl

/-- C7: a `create` with zero requested keys issues exactly one kubectl
invocation — the `create` — and in particular no patch, consumes no
input, and succeeds. -/
theorem createSecret_zero_keys (ns : Option String) (name : String)
    (enc : Bool) (getOutput : List Char) (inputs : List String) :
    createSecretCalls ns name [] enc getOutput inputs
      = ([namespaceArgs ns ++ ["create", "secret", "generic", name]], 0) := by
  rfl

end Sekr8s
